/-
Verification of the TaskDAG application's core logic, shallowly embedded
from its TypeScript source: leaf counting, proportional vertical layout,
recursive task-state operations, viewport zoom handling, per-task action
availability, and label-edit commit/cancel semantics.

JS numbers are modelled as rationals (exact arithmetic); `Math.exp` in the
wheel handler is modelled by an abstract multiplicative factor; the JS
WeakMap keyed by object identity is modelled as a map over node ids; the
JS falsy-or `x || y` on numbers is modelled as `if x = 0 then y else x`.
-/
import Mathlib

set_option maxHeartbeats 1000000

namespace TaskDAG

/-- Task states, from `type TaskState = "default" | "completed" | "cancelled"`. -/
inductive TaskState where
  | default
  | completed
  | cancelled
deriving DecidableEq

/-- Action kinds, from `type ActionType = "cancel" | "complete" | "add" | "restore" | "delete" | "rename"`. -/
inductive ActionType where
  | cancel
  | complete
  | add
  | restore
  | delete
  | rename
deriving DecidableEq

/-- A task tree node, from `type Task = { label: string; subtasks: Task[] }`.
The extra `id` field models JS object identity (the source keys WeakMaps and
compares tasks with reference equality). -/
inductive Task where
  | mk (id : Nat) (label : String) (subtasks : List Task)

def Task.id : Task → Nat
  | .mk i _ _ => i

def Task.label : Task → String
  | .mk _ l _ => l

def Task.subtasks : Task → List Task
  | .mk _ _ ts => ts

def NODE_HEIGHT : ℚ := 48

def NODE_VERTICAL_SPACING : ℚ := 60

def NODE_VERTICAL_MARGIN : ℚ := 24

def ZOOM_MIN : ℚ := 2/5

def ZOOM_MAX : ℚ := 5/2

def VIEWPORT_ANIMATION_EPS : ℚ := 1/10

def PAN_ANIMATION_FACTOR : ℚ := 3/20

def ZOOM_ANIMATION_FACTOR : ℚ := 3/20

mutual
/-- From `getLeafCount`: `subtasks.length ? subtasks.reduce((sum, child) => sum + getLeafCount(child), 0) : 1`.
The WeakMap cache is a pure memoisation and is dropped. -/
def getLeafCount : Task → Nat
  | .mk _ _ [] => 1
  | .mk _ _ (c :: cs) => getLeafCount c + leafCountSum cs

/-- The `reduce` sum over a list of subtasks inside `getLeafCount`. -/
def leafCountSum : List Task → Nat
  | [] => 0
  | c :: cs => getLeafCount c + leafCountSum cs
end

mutual
/-- Spec-side definition (for the refinement part of the leaf-count claim):
the list of leaf nodes of a tree, following the spec words "number of leaf
nodes in the tree". -/
def leafNodes : Task → List Task
  | .mk i l [] => [Task.mk i l []]
  | .mk _ _ (c :: cs) => leafNodesList (c :: cs)

/-- Leaf nodes of a forest, for `leafNodes`. -/
def leafNodesList : List Task → List Task
  | [] => []
  | c :: cs => leafNodes c ++ leafNodesList cs
end

/-- From `computeLayoutHeight`: `Math.max(getLeafCount(task), 1) * (NODE_HEIGHT + NODE_VERTICAL_SPACING)`. -/
def computeLayoutHeight (t : Task) : ℚ :=
  (max (getLeafCount t) 1 : ℕ) * (NODE_HEIGHT + NODE_VERTICAL_SPACING)

/-- The `taskStates` WeakMap, modelled over node ids; `none` means the key is
absent (JS `taskStates.get` returning `undefined`). -/
def StateMap : Type := Nat → Option TaskState

/-- A single `taskStates.set`/`taskStates.delete` write at one id. -/
def updState (m : StateMap) (i : Nat) (v : Option TaskState) : StateMap :=
  fun j => if j = i then v else m j

/-- The effective state of an id: `taskStates.get(task) ?? "default"`. -/
def stateOfId (m : StateMap) (j : Nat) : TaskState :=
  (m j).getD TaskState.default

/-- The effective state of a task: `taskStates.get(task) ?? "default"`. -/
def stateOf (m : StateMap) (t : Task) : TaskState :=
  stateOfId m t.id

mutual
/-- From `setTaskStateRecursive`: `taskStates.set(task, state); task.subtasks.forEach((child) => setTaskStateRecursive(child, state))`. -/
def setTaskStateRecursive (t : Task) (s : TaskState) (m : StateMap) : StateMap :=
  match t with
  | .mk i _ ts => setListState ts s (updState m i (some s))

/-- The `forEach` loop of `setTaskStateRecursive` over the subtask list. -/
def setListState : List Task → TaskState → StateMap → StateMap
  | [], _, m => m
  | c :: cs, s, m => setListState cs s (setTaskStateRecursive c s m)
end

mutual
/-- From `clearTaskStateRecursive`: `taskStates.delete(task); task.subtasks.forEach((child) => clearTaskStateRecursive(child))`. -/
def clearTaskStateRecursive (t : Task) (m : StateMap) : StateMap :=
  match t with
  | .mk i _ ts => clearListState ts (updState m i none)

/-- The `forEach` loop of `clearTaskStateRecursive` over the subtask list. -/
def clearListState : List Task → StateMap → StateMap
  | [], m => m
  | c :: cs, m => clearListState cs (clearTaskStateRecursive c m)
end

mutual
/-- The ids of a task and all of its descendants (the subtree a recursive
state operation touches). -/
def subtreeIds : Task → List Nat
  | .mk i _ ts => i :: subtreeIdsList ts

/-- Subtree ids of a forest, for `subtreeIds`. -/
def subtreeIdsList : List Task → List Nat
  | [] => []
  | c :: cs => subtreeIds c ++ subtreeIdsList cs
end

/-- From `getActionsForTask`: the root task gets no actions; otherwise the
action list is chosen by the task's effective state. The `task === rootTask`
reference check is modelled by the `isRoot` flag. -/
def getActionsForTask (isRoot : Bool) (t : Task) (m : StateMap) : List ActionType :=
  if isRoot then []
  else if stateOf m t = TaskState.cancelled ∨ stateOf m t = TaskState.completed then
    [ActionType.delete, ActionType.restore]
  else
    [ActionType.cancel, ActionType.rename, ActionType.complete]

/-- The `"cancel"` branch of `handleAction`: toggle a cancelled subtree. -/
def cancelAction (t : Task) (m : StateMap) : StateMap :=
  if m t.id = some TaskState.cancelled then clearTaskStateRecursive t m
  else setTaskStateRecursive t TaskState.cancelled m

/-- The `"complete"` branch of `handleAction`: toggle completed on one node. -/
def completeAction (t : Task) (m : StateMap) : StateMap :=
  if m t.id = some TaskState.completed then updState m t.id none
  else updState m t.id (some TaskState.completed)

/-- The `"restore"` branch of `handleAction`: `clearTaskStateRecursive(task)`. -/
def restoreAction (t : Task) (m : StateMap) : StateMap :=
  clearTaskStateRecursive t m

/-- From `deleteTask`: with no parent it returns without touching anything;
otherwise `parent.subtasks = parent.subtasks.filter((child) => child !== node.task)`
followed by `clearTaskStateRecursive(node.task)`. The result is the parent's
new subtask list (or `none` for a missing parent) and the new state map. -/
def deleteTask (c : Task) (parent : Option Task) (m : StateMap) : Option (List Task) × StateMap :=
  match parent with
  | none => (none, m)
  | some p => (some (p.subtasks.filter (fun x => x.id != c.id)), clearTaskStateRecursive c m)

/-- From `removeTaskFromParent`: guard on a missing parent, then filter the
task out of the parent's subtasks and clear its subtree's states. -/
def removeTaskFromParent (t : Task) (parent : Option Task) (m : StateMap) :
    Option (List Task) × StateMap :=
  match parent with
  | none => (none, m)
  | some p => (some (p.subtasks.filter (fun x => x.id != t.id)), clearTaskStateRecursive t m)

/-- JS `String.prototype.trim`, modelled over the character list (Lean's
builtin `String.trim` is kept out because it does not reduce in the kernel). -/
def jsTrim (s : String) : String :=
  String.mk (((s.data.dropWhile Char.isWhitespace).reverse.dropWhile Char.isWhitespace).reverse)

/-- Outcome of `finishEditingTask` on the edited task: either the task was
removed from its parent (carrying the parent's new subtask list and the new
state map) or it kept/received a label. -/
inductive EditOutcome where
  | removedFromParent (newSiblings : List Task) (newStates : StateMap)
  | keptLabel (newLabel : String)

/-- Whether an `EditOutcome` kept the task (with some label). -/
def EditOutcome.isKept : EditOutcome → Bool
  | .removedFromParent _ _ => false
  | .keptLabel _ => true

/-- From `finishEditingTask(commit)`: on cancel, revert the label unless the
pre-edit label trims to empty and a parent exists (then remove); on commit,
trim the input; empty goes to removal (with a parent) or revert (without),
non-empty becomes the label. -/
def finishEditingTask (commit : Bool) (inputValue initialLabel : String)
    (t : Task) (parent : Option Task) (m : StateMap) : EditOutcome :=
  if commit = false then
    if jsTrim initialLabel = "" ∧ parent.isSome then
      match parent with
      | some p => .removedFromParent (p.subtasks.filter (fun x => x.id != t.id))
          (clearTaskStateRecursive t m)
      | none => .keptLabel initialLabel
    else
      .keptLabel initialLabel
  else
    if jsTrim inputValue = "" then
      match parent with
      | some p => .removedFromParent (p.subtasks.filter (fun x => x.id != t.id))
          (clearTaskStateRecursive t m)
      | none => .keptLabel initialLabel
    else
      .keptLabel (jsTrim inputValue)

/-- From `drawTask`: `const totalLeaves = subtasks.reduce((sum, child) => sum + getLeafCount(child), 0) || subtasks.length`. -/
def totalLeavesOf (ts : List Task) : Nat :=
  if (ts.map getLeafCount).sum = 0 then ts.length else (ts.map getLeafCount).sum

/-- From `drawTask`: `const weight = (getLeafCount(subtask) / totalLeaves) || (1 / subtasks.length)`. -/
def childWeight (t : Task) (totalLeaves n : Nat) : ℚ :=
  if (getLeafCount t : ℚ) / (totalLeaves : ℚ) = 0 then 1 / (n : ℚ)
  else (getLeafCount t : ℚ) / (totalLeaves : ℚ)

/-- The spans `childSpan = span * weight` handed out to the children of a node,
in declaration order. -/
def childSpans (span : ℚ) (ts : List Task) : List ℚ :=
  ts.map (fun c => span * childWeight c (totalLeavesOf ts) ts.length)

/-- The accumulator loop of `drawTask`: `childStart = offset; childEnd = childStart + childSpan; ...; offset += childSpan`,
turned into the list of unpadded `[childStart, childEnd]` ranges. -/
def childRanges (offset : ℚ) : List ℚ → List (ℚ × ℚ)
  | [] => []
  | s :: rest => (offset, offset + s) :: childRanges (offset + s) rest

/-- From `drawTask`: `const padding = Math.min(childSpan / 2 - 1e-4, NODE_VERTICAL_MARGIN / layoutHeightValue)`. -/
def paddingFor (childSpan H : ℚ) : ℚ :=
  min (childSpan / 2 - 1/10000) (NODE_VERTICAL_MARGIN / H)

mutual
/-- The range-passing skeleton of the `drawTask` recursion: the vertical range
`[s, e]` a node receives, together with the ranges of all of its descendants.
Each child receives `[childStart + padding, childEnd - padding]`. -/
def layoutRanges (t : Task) (s e H : ℚ) : List (Task × ℚ × ℚ) :=
  match t with
  | .mk i l ts =>
    (Task.mk i l ts, s, e) ::
      (match ts with
       | [] => []
       | c :: cs => childLayoutRanges (c :: cs) s (e - s) (totalLeavesOf (c :: cs)) (c :: cs).length H)

/-- The `subtasks.forEach` loop of `drawTask`, collecting each child's padded
range and recursing. -/
def childLayoutRanges : List Task → ℚ → ℚ → Nat → Nat → ℚ → List (Task × ℚ × ℚ)
  | [], _, _, _, _, _ => []
  | c :: cs, offset, span, total, n, H =>
    layoutRanges c (offset + paddingFor (span * childWeight c total n) H)
        (offset + span * childWeight c total n - paddingFor (span * childWeight c total n) H) H ++
      childLayoutRanges cs (offset + span * childWeight c total n) span total n H
end

/-- From the `clamp` helper: `Math.min(Math.max(value, min), max)`. -/
def clamp (value lo hi : ℚ) : ℚ :=
  min (max value lo) hi

/-- The viewport state written by the pan/zoom handlers: `panX`, `panY`,
`zoom` and their animation targets. -/
structure ViewState where
  panX : ℚ
  panY : ℚ
  zoom : ℚ
  panTargetX : ℚ
  panTargetY : ℚ
  zoomTarget : ℚ

/-- The initial viewport: `zoom = 1`, targets equal to the current values
(the initial pan depends on the DOM viewport and is abstracted as `px`, `py`). -/
def initViewState (px py : ℚ) : ViewState :=
  { panX := px, panY := py, zoom := 1, panTargetX := px, panTargetY := py, zoomTarget := 1 }

/-- From `setupZoomHandler`'s wheel listener. `zoomDelta` stands for the value
of `Math.exp(-event.deltaY * ZOOM_SENSITIVITY)` (the one transcendental step,
kept abstract); everything after it is embedded verbatim: clamp the new zoom,
return early when it equals the current target, otherwise recompute the pan
targets from the world point under the cursor. -/
def wheelZoom (canvasX canvasY zoomDelta : ℚ) (v : ViewState) : ViewState :=
  if clamp (v.zoom * zoomDelta) ZOOM_MIN ZOOM_MAX = v.zoomTarget then v
  else
    { v with
      zoomTarget := clamp (v.zoom * zoomDelta) ZOOM_MIN ZOOM_MAX,
      panTargetX := canvasX - ((canvasX - v.panX) / v.zoom) * clamp (v.zoom * zoomDelta) ZOOM_MIN ZOOM_MAX,
      panTargetY := canvasY - ((canvasY - v.panY) / v.zoom) * clamp (v.zoom * zoomDelta) ZOOM_MIN ZOOM_MAX }

/-- From `adjustZoomByKeyboard(factor)`: zoom about the canvas centre with the
new target `clamp(zoomTarget * factor, ZOOM_MIN, ZOOM_MAX)`. -/
def adjustZoomByKeyboard (factor w h : ℚ) (v : ViewState) : ViewState :=
  if clamp (v.zoomTarget * factor) ZOOM_MIN ZOOM_MAX = v.zoomTarget then v
  else
    { v with
      zoomTarget := clamp (v.zoomTarget * factor) ZOOM_MIN ZOOM_MAX,
      panTargetX := w / 2 - ((w / 2 - v.panX) / v.zoom) * clamp (v.zoomTarget * factor) ZOOM_MIN ZOOM_MAX,
      panTargetY := h / 2 - ((h / 2 - v.panY) / v.zoom) * clamp (v.zoomTarget * factor) ZOOM_MIN ZOOM_MAX }

/-- From `panViewport(dx, dy)`: shift the pan targets. -/
def panViewport (dx dy : ℚ) (v : ViewState) : ViewState :=
  { v with panTargetX := v.panTargetX + dx, panTargetY := v.panTargetY + dy }

/-- From the `pointermove` drag handler: pan follows the pointer and all
targets snap to the current values (`zoomTarget = zoom`). -/
def dragMove (px py : ℚ) (v : ViewState) : ViewState :=
  { v with panX := px, panY := py, panTargetX := px, panTargetY := py, zoomTarget := v.zoom }

/-- From `stepViewportAnimation`: each of `panX`, `panY`, `zoom` moves a fixed
fraction toward its target while farther than `VIEWPORT_ANIMATION_EPS`, and
snaps to the target otherwise. -/
def stepViewportAnimation (v : ViewState) : ViewState :=
  { v with
    panX := if |v.panTargetX - v.panX| > VIEWPORT_ANIMATION_EPS then
        v.panX + (v.panTargetX - v.panX) * PAN_ANIMATION_FACTOR
      else v.panTargetX,
    panY := if |v.panTargetY - v.panY| > VIEWPORT_ANIMATION_EPS then
        v.panY + (v.panTargetY - v.panY) * PAN_ANIMATION_FACTOR
      else v.panTargetY,
    zoom := if |v.zoomTarget - v.zoom| > VIEWPORT_ANIMATION_EPS then
        v.zoom + (v.zoomTarget - v.zoom) * ZOOM_ANIMATION_FACTOR
      else v.zoomTarget }

/-- The operations that write the viewport state. -/
inductive ViewOp where
  | wheel (canvasX canvasY zoomDelta : ℚ)
  | keyZoom (factor w h : ℚ)
  | pan (dx dy : ℚ)
  | drag (px py : ℚ)
  | animStep

/-- Apply one viewport operation. -/
def applyViewOp (op : ViewOp) (v : ViewState) : ViewState :=
  match op with
  | .wheel cx cy dz => wheelZoom cx cy dz v
  | .keyZoom f w h => adjustZoomByKeyboard f w h v
  | .pan dx dy => panViewport dx dy v
  | .drag px py => dragMove px py v
  | .animStep => stepViewportAnimation v

/-- Apply a sequence of viewport operations, oldest first. -/
def applyViewOps (ops : List ViewOp) (v : ViewState) : ViewState :=
  ops.foldl (fun w op => applyViewOp op w) v

/-- The invariant claimed for the viewport: both `zoom` and `zoomTarget` stay
inside `[ZOOM_MIN, ZOOM_MAX]`. -/
def zoomInRange (v : ViewState) : Prop :=
  ZOOM_MIN ≤ v.zoom ∧ v.zoom ≤ ZOOM_MAX ∧ ZOOM_MIN ≤ v.zoomTarget ∧ v.zoomTarget ≤ ZOOM_MAX

/-- From `drawTask`: the progress pair pushed with a node,
`{ completed: subtasks.filter((child) => (taskStates.get(child) ?? "default") === "completed").length, total: subtasks.length }`,
present exactly when the node has subtasks. -/
def nodeProgress (t : Task) (m : StateMap) : Option (Nat × Nat) :=
  match t.subtasks with
  | [] => none
  | c :: cs => some (((c :: cs).filter (fun x => stateOf m x == TaskState.completed)).length,
      (c :: cs).length)

/-- From `drawNode`: `progress && progress.total > 0 ? Math.min(progress.completed / progress.total, 1) : null`. -/
def progressFill (p : Option (Nat × Nat)) : Option ℚ :=
  match p with
  | none => none
  | some (c, tot) => if 0 < tot then some (min ((c : ℚ) / (tot : ℚ)) 1) else none

/-- The empty `taskStates` map (a fresh WeakMap). -/
def emptyStates : StateMap := fun _ => none

/-- Concrete leaf tasks used to instantiate the theorems. -/
def exLeafA : Task := Task.mk 1 "a" []

def exLeafB : Task := Task.mk 2 "b" []

def exLeafC : Task := Task.mk 3 "c" []

def exLeafD : Task := Task.mk 4 "d" []

/-- A concrete parent with four leaf children. -/
def exParent4 : Task := Task.mk 0 "p" [exLeafA, exLeafB, exLeafC, exLeafD]

/-- A concrete two-node subtree (a parent with one child). -/
def exPair : Task := Task.mk 1 "x" [Task.mk 2 "y" []]

/-- A concrete single deeply nested chain. -/
def exChain : Task := Task.mk 0 "c0" [Task.mk 1 "c1" [Task.mk 2 "c2" []]]

/-- A concrete task whose label is whitespace-only. -/
def exWsTask : Task := Task.mk 5 " " []

/-- A concrete parent holding `exWsTask`. -/
def exWsParent : Task := Task.mk 0 "root" [exWsTask, exLeafA]

/-- A state map in which every id is marked cancelled. -/
def allCancelled : StateMap := fun _ => some TaskState.cancelled

/-- A state map in which every id is marked completed. -/
def allCompleted : StateMap := fun _ => some TaskState.completed

/-- A concrete viewport state whose zoom target differs from its zoom. -/
def exView : ViewState :=
  { panX := 0, panY := 0, zoom := 1, panTargetX := 0, panTargetY := 0, zoomTarget := 2 }

theorem leafCountSum_eq_sum_map (ts : List Task) :
    leafCountSum ts = (ts.map getLeafCount).sum := by
  induction ts with
  | nil => simp [leafCountSum]
  | cons c cs ih => simp [leafCountSum, ih]

theorem getLeafCount_pos (t : Task) : 1 ≤ getLeafCount t := by
  cases t with
  | mk i l ts =>
    cases ts with
    | nil => simp [getLeafCount]
    | cons c cs =>
      have h1 := getLeafCount_pos c
      simp only [getLeafCount]
      omega

mutual
theorem getLeafCount_eq_length_leafNodes (t : Task) :
    getLeafCount t = (leafNodes t).length := by
  cases t with
  | mk i l ts =>
    cases ts with
    | nil => simp [getLeafCount, leafNodes]
    | cons c cs =>
      have h1 := getLeafCount_eq_length_leafNodes c
      have h2 := leafCountSum_eq_length_leafNodesList cs
      simp [getLeafCount, leafNodes, leafNodesList, h1, h2]

theorem leafCountSum_eq_length_leafNodesList (ts : List Task) :
    leafCountSum ts = (leafNodesList ts).length := by
  cases ts with
  | nil => simp [leafCountSum, leafNodesList]
  | cons c cs =>
    have h1 := getLeafCount_eq_length_leafNodes c
    have h2 := leafCountSum_eq_length_leafNodesList cs
    simp [leafCountSum, leafNodesList, h1, h2]
end

theorem updState_ne (m : StateMap) (i j : Nat) (v : Option TaskState) (h : j ≠ i) :
    updState m i v j = m j := by
  simp [updState, h]

theorem updState_self (m : StateMap) (i : Nat) (v : Option TaskState) :
    updState m i v i = v := by
  simp [updState]

mutual
theorem setTaskStateRecursive_frame (t : Task) (s : TaskState) (m : StateMap) :
    ∀ j, j ∉ subtreeIds t → setTaskStateRecursive t s m j = m j := by
  cases t with
  | mk i l ts =>
    intro j hj
    simp only [subtreeIds, List.mem_cons, not_or] at hj
    rw [setTaskStateRecursive, setListState_frame ts s _ j hj.2, updState_ne m i j _ hj.1]

theorem setListState_frame (ts : List Task) (s : TaskState) (m : StateMap) :
    ∀ j, j ∉ subtreeIdsList ts → setListState ts s m j = m j := by
  cases ts with
  | nil => intro j _; rfl
  | cons c cs =>
    intro j hj
    simp only [subtreeIdsList, List.mem_append, not_or] at hj
    rw [setListState, setListState_frame cs s _ j hj.2,
      setTaskStateRecursive_frame c s m j hj.1]
end

mutual
theorem setTaskStateRecursive_mem (t : Task) (s : TaskState) (m : StateMap) :
    ∀ j ∈ subtreeIds t, setTaskStateRecursive t s m j = some s := by
  cases t with
  | mk i l ts =>
    intro j hj
    rw [setTaskStateRecursive]
    by_cases hmem : j ∈ subtreeIdsList ts
    · exact setListState_mem ts s _ j hmem
    · simp only [subtreeIds, List.mem_cons] at hj
      rcases hj with hj | hj
      · rw [setListState_frame ts s _ j hmem, hj, updState_self]
      · exact absurd hj hmem

theorem setListState_mem (ts : List Task) (s : TaskState) (m : StateMap) :
    ∀ j ∈ subtreeIdsList ts, setListState ts s m j = some s := by
  cases ts with
  | nil => intro j hj; simp [subtreeIdsList] at hj
  | cons c cs =>
    intro j hj
    rw [setListState]
    by_cases hmem : j ∈ subtreeIdsList cs
    · exact setListState_mem cs s _ j hmem
    · simp only [subtreeIdsList, List.mem_append] at hj
      rcases hj with hj | hj
      · rw [setListState_frame cs s _ j hmem, setTaskStateRecursive_mem c s m j hj]
      · exact absurd hj hmem
end

mutual
theorem clearTaskStateRecursive_frame (t : Task) (m : StateMap) :
    ∀ j, j ∉ subtreeIds t → clearTaskStateRecursive t m j = m j := by
  cases t with
  | mk i l ts =>
    intro j hj
    simp only [subtreeIds, List.mem_cons, not_or] at hj
    rw [clearTaskStateRecursive, clearListState_frame ts _ j hj.2, updState_ne m i j _ hj.1]

theorem clearListState_frame (ts : List Task) (m : StateMap) :
    ∀ j, j ∉ subtreeIdsList ts → clearListState ts m j = m j := by
  cases ts with
  | nil => intro j _; rfl
  | cons c cs =>
    intro j hj
    simp only [subtreeIdsList, List.mem_append, not_or] at hj
    rw [clearListState, clearListState_frame cs _ j hj.2,
      clearTaskStateRecursive_frame c m j hj.1]
end

mutual
theorem clearTaskStateRecursive_mem (t : Task) (m : StateMap) :
    ∀ j ∈ subtreeIds t, clearTaskStateRecursive t m j = none := by
  cases t with
  | mk i l ts =>
    intro j hj
    rw [clearTaskStateRecursive]
    by_cases hmem : j ∈ subtreeIdsList ts
    · exact clearListState_mem ts _ j hmem
    · simp only [subtreeIds, List.mem_cons] at hj
      rcases hj with hj | hj
      · rw [clearListState_frame ts _ j hmem, hj, updState_self]
      · exact absurd hj hmem

theorem clearListState_mem (ts : List Task) (m : StateMap) :
    ∀ j ∈ subtreeIdsList ts, clearListState ts m j = none := by
  cases ts with
  | nil => intro j hj; simp [subtreeIdsList] at hj
  | cons c cs =>
    intro j hj
    rw [clearListState]
    by_cases hmem : j ∈ subtreeIdsList cs
    · exact clearListState_mem cs _ j hmem
    · simp only [subtreeIdsList, List.mem_append] at hj
      rcases hj with hj | hj
      · rw [clearListState_frame cs _ j hmem, clearTaskStateRecursive_mem c m j hj]
      · exact absurd hj hmem
end

theorem sum_map_getLeafCount_pos (ts : List Task) (h : ts ≠ []) :
    1 ≤ (ts.map getLeafCount).sum := by
  cases ts with
  | nil => exact absurd rfl h
  | cons c cs =>
    have := getLeafCount_pos c
    simp only [List.map_cons, List.sum_cons]
    omega

theorem totalLeavesOf_eq (ts : List Task) (h : ts ≠ []) :
    totalLeavesOf ts = (ts.map getLeafCount).sum := by
  have h1 := sum_map_getLeafCount_pos ts h
  rw [totalLeavesOf, if_neg (by omega)]

theorem childWeight_eq (ts : List Task) (h : ts ≠ []) (c : Task) (n : Nat) :
    childWeight c (totalLeavesOf ts) n
      = (getLeafCount c : ℚ) / ((ts.map getLeafCount).sum : ℚ) := by
  have h1 := sum_map_getLeafCount_pos ts h
  have hc := getLeafCount_pos c
  have hden : ((ts.map getLeafCount).sum : ℚ) ≠ 0 := Nat.cast_ne_zero.mpr (by omega)
  have hnum : (getLeafCount c : ℚ) ≠ 0 := Nat.cast_ne_zero.mpr (by omega)
  rw [childWeight, totalLeavesOf_eq ts h, if_neg (div_ne_zero hnum hden)]

theorem childSpans_eq (span : ℚ) (ts : List Task) (h : ts ≠ []) :
    childSpans span ts
      = ts.map (fun c => span * ((getLeafCount c : ℚ) / ((ts.map getLeafCount).sum : ℚ))) := by
  unfold childSpans
  exact List.map_congr_left fun c _ => by rw [childWeight_eq ts h c]

theorem childSpans_sum (span : ℚ) (ts : List Task) (h : ts ≠ []) :
    (childSpans span ts).sum = span := by
  have h1 := sum_map_getLeafCount_pos ts h
  have hden : ((ts.map getLeafCount).sum : ℚ) ≠ 0 := Nat.cast_ne_zero.mpr (by omega)
  rw [childSpans_eq span ts h]
  have hsum : (ts.map (fun c => span * ((getLeafCount c : ℚ) / ((ts.map getLeafCount).sum : ℚ)))).sum
      = span * (ts.map (fun c => (getLeafCount c : ℚ) / ((ts.map getLeafCount).sum : ℚ))).sum :=
    List.sum_map_mul_left ts _ span
  rw [hsum]
  have hdiv : (ts.map (fun c => (getLeafCount c : ℚ) / ((ts.map getLeafCount).sum : ℚ))).sum
      = (ts.map (fun c => (getLeafCount c : ℚ))).sum / ((ts.map getLeafCount).sum : ℚ) := by
    simp only [div_eq_mul_inv]
    exact List.sum_map_mul_right ts _ _
  rw [hdiv]
  have hcast : (ts.map (fun c => (getLeafCount c : ℚ))).sum = ((ts.map getLeafCount).sum : ℚ) := by
    rw [Nat.cast_list_sum, List.map_map]
    rfl
  rw [hcast, div_self hden, mul_one]

theorem childRanges_eq (spans : List ℚ) (offset : ℚ) :
    childRanges offset spans
      = (List.range spans.length).map
          (fun i => (offset + (spans.take i).sum, offset + (spans.take (i + 1)).sum)) := by
  induction spans generalizing offset with
  | nil => simp [childRanges]
  | cons s rest ih =>
    rw [childRanges, ih (offset + s)]
    simp only [List.length_cons, List.range_succ_eq_map, List.map_cons, List.map_map]
    congr 1
    · simp
    · exact List.map_congr_left fun i _ => by
        simp [Function.comp, List.take_succ_cons, add_assoc]

theorem paddingFor_le (childSpan H : ℚ) :
    paddingFor childSpan H ≤ childSpan / 2 - 1/10000 :=
  min_le_left _ _

mutual
theorem layoutRanges_pos (t : Task) (s e H : ℚ) (h : s < e) :
    ∀ r ∈ layoutRanges t s e H, r.2.1 < r.2.2 := by
  cases t with
  | mk i l ts =>
    intro r hr
    cases ts with
    | nil =>
      simp only [layoutRanges, List.mem_singleton] at hr
      rw [hr]
      exact h
    | cons c cs =>
      rw [layoutRanges] at hr
      rcases List.mem_cons.mp hr with hr | hr
      · rw [hr]; exact h
      · exact childLayoutRanges_pos (c :: cs) s (e - s) (totalLeavesOf (c :: cs))
          (c :: cs).length H r hr

theorem childLayoutRanges_pos (ts : List Task) (offset span : ℚ) (total n : Nat) (H : ℚ) :
    ∀ r ∈ childLayoutRanges ts offset span total n H, r.2.1 < r.2.2 := by
  cases ts with
  | nil => intro r hr; simp [childLayoutRanges] at hr
  | cons c cs =>
    intro r hr
    rw [childLayoutRanges] at hr
    rcases List.mem_append.mp hr with hr | hr
    · have hpad := paddingFor_le (span * childWeight c total n) H
      exact layoutRanges_pos c _ _ H (by linarith) r hr
    · exact childLayoutRanges_pos cs (offset + span * childWeight c total n) span total n H r hr
end

theorem filter_ne_id_decomp (sibs : List Task) (c : Task)
    (hmem : c ∈ sibs) (hnd : (sibs.map Task.id).Nodup) :
    ∃ l1 l2, sibs = l1 ++ c :: l2 ∧ sibs.filter (fun x => x.id != c.id) = l1 ++ l2 := by
  induction sibs with
  | nil => exact absurd hmem (List.not_mem_nil c)
  | cons a rest ih =>
    simp only [List.map_cons, List.nodup_cons] at hnd
    rcases List.mem_cons.mp hmem with heq | hmem'
    · subst heq
      refine ⟨[], rest, rfl, ?_⟩
      rw [List.filter_cons_of_neg (by simp)]
      simp only [List.nil_append]
      exact List.filter_eq_self.mpr fun x hx => by
        simp only [bne_iff_ne, ne_eq, decide_eq_true_eq]
        intro hxc
        exact hnd.1 (hxc ▸ List.mem_map_of_mem Task.id hx)
    · rcases ih hmem' hnd.2 with ⟨l1, l2, hdec, hfil⟩
      have hane : a.id ≠ c.id := fun hac =>
        hnd.1 (hac ▸ List.mem_map_of_mem Task.id hmem')
      refine ⟨a :: l1, l2, by rw [hdec]; rfl, ?_⟩
      rw [List.filter_cons_of_pos (by simpa using hane), hfil]
      rfl

theorem le_clamp (x lo hi : ℚ) (h : lo ≤ hi) : lo ≤ clamp x lo hi :=
  le_min (le_max_right x lo) h

theorem clamp_le (x lo hi : ℚ) : clamp x lo hi ≤ hi :=
  min_le_right _ _

theorem zoom_bounds : ZOOM_MIN ≤ ZOOM_MAX := by
  norm_num [ZOOM_MIN, ZOOM_MAX]

theorem applyViewOp_zoomInRange (op : ViewOp) (v : ViewState) (h : zoomInRange v) :
    zoomInRange (applyViewOp op v) := by
  obtain ⟨h1, h2, h3, h4⟩ := h
  cases op with
  | wheel cx cy dz =>
    by_cases hc : clamp (v.zoom * dz) ZOOM_MIN ZOOM_MAX = v.zoomTarget
    · simpa [applyViewOp, wheelZoom, hc] using ⟨h1, h2, h3, h4⟩
    · exact ⟨by simpa [applyViewOp, wheelZoom, hc] using h1,
        by simpa [applyViewOp, wheelZoom, hc] using h2,
        by simpa [applyViewOp, wheelZoom, hc] using le_clamp _ _ _ zoom_bounds,
        by simpa [applyViewOp, wheelZoom, hc] using clamp_le (v.zoom * dz) ZOOM_MIN ZOOM_MAX⟩
  | keyZoom f w hh =>
    by_cases hc : clamp (v.zoomTarget * f) ZOOM_MIN ZOOM_MAX = v.zoomTarget
    · simpa [applyViewOp, adjustZoomByKeyboard, hc] using ⟨h1, h2, h3, h4⟩
    · exact ⟨by simpa [applyViewOp, adjustZoomByKeyboard, hc] using h1,
        by simpa [applyViewOp, adjustZoomByKeyboard, hc] using h2,
        by simpa [applyViewOp, adjustZoomByKeyboard, hc] using le_clamp _ _ _ zoom_bounds,
        by simpa [applyViewOp, adjustZoomByKeyboard, hc] using
          clamp_le (v.zoomTarget * f) ZOOM_MIN ZOOM_MAX⟩
  | pan dx dy =>
    exact ⟨by simpa [applyViewOp, panViewport] using h1,
      by simpa [applyViewOp, panViewport] using h2,
      by simpa [applyViewOp, panViewport] using h3,
      by simpa [applyViewOp, panViewport] using h4⟩
  | drag px py =>
    exact ⟨by simpa [applyViewOp, dragMove] using h1,
      by simpa [applyViewOp, dragMove] using h2,
      by simpa [applyViewOp, dragMove] using h1,
      by simpa [applyViewOp, dragMove] using h2⟩
  | animStep =>
    refine ⟨?_, ?_, by simpa [applyViewOp, stepViewportAnimation] using h3,
      by simpa [applyViewOp, stepViewportAnimation] using h4⟩
    · simp only [applyViewOp, stepViewportAnimation]
      split
      · simp only [ZOOM_ANIMATION_FACTOR]
        linarith
      · exact h3
    · simp only [applyViewOp, stepViewportAnimation]
      split
      · simp only [ZOOM_ANIMATION_FACTOR]
        linarith
      · exact h4

theorem applyViewOps_zoomInRange (ops : List ViewOp) (v : ViewState) (h : zoomInRange v) :
    zoomInRange (applyViewOps ops v) := by
  induction ops generalizing v with
  | nil => exact h
  | cons op rest ih => exact ih _ (applyViewOp_zoomInRange op v h)

theorem initViewState_zoomInRange (px py : ℚ) : zoomInRange (initViewState px py) := by
  refine ⟨?_, ?_, ?_, ?_⟩ <;> norm_num [initViewState, ZOOM_MIN, ZOOM_MAX]

/-- C1: `getLeafCount` returns 1 on a task with no subtasks and the sum of
the children's leaf counts otherwise; that value also equals
`max 1 (sum)`; consequently `getLeafCount` equals the number of leaf nodes
of the tree and is always at least 1, for every tree shape. -/
theorem getLeafCount_spec :
    (∀ i l, getLeafCount (Task.mk i l []) = 1) ∧
    (∀ i l c cs, getLeafCount (Task.mk i l (c :: cs)) = ((c :: cs).map getLeafCount).sum) ∧
    (∀ i l c cs, getLeafCount (Task.mk i l (c :: cs))
        = max 1 (((c :: cs).map getLeafCount).sum)) ∧
    (∀ t, getLeafCount t = (leafNodes t).length) ∧
    (∀ t, 1 ≤ getLeafCount t) := by
  refine ⟨fun i l => by simp [getLeafCount], ?_, ?_,
    getLeafCount_eq_length_leafNodes, getLeafCount_pos⟩
  · intro i l c cs
    simp [getLeafCount, leafCountSum_eq_sum_map]
  · intro i l c cs
    have h := sum_map_getLeafCount_pos (c :: cs) (by simp)
    simp only [getLeafCount, leafCountSum_eq_sum_map, List.map_cons, List.sum_cons]
    simp only [List.map_cons, List.sum_cons] at h
    omega

/-- C2: for a node with a non-empty subtask list assigned the vertical range
`[s, e]`, the child spans are `(e - s) * leafCount(child) / totalChildLeaves`
in declaration order, they sum exactly to `e - s`, and the unpadded child
ranges laid out by the offset loop partition `[s, e]` consecutively. -/
theorem childSpans_partition (t : Task) (s e : ℚ) (h : t.subtasks ≠ []) :
    childSpans (e - s) t.subtasks
        = t.subtasks.map (fun c => (e - s) *
            ((getLeafCount c : ℚ) / ((t.subtasks.map getLeafCount).sum : ℚ))) ∧
    (childSpans (e - s) t.subtasks).sum = e - s ∧
    s + (childSpans (e - s) t.subtasks).sum = e ∧
    childRanges s (childSpans (e - s) t.subtasks)
        = (List.range t.subtasks.length).map
            (fun i => (s + ((childSpans (e - s) t.subtasks).take i).sum,
                       s + ((childSpans (e - s) t.subtasks).take (i + 1)).sum)) := by
  refine ⟨childSpans_eq _ _ h, childSpans_sum _ _ h,
    by rw [childSpans_sum _ _ h]; ring, ?_⟩
  rw [childRanges_eq]
  rw [show (childSpans (e - s) t.subtasks).length = t.subtasks.length from by
    simp [childSpans]]

/-- Witness for C2 at a concrete parent with four children and range `[0, 1]`. -/
theorem childSpans_partition_witness :
    exParent4.subtasks ≠ [] ∧ (childSpans ((1:ℚ) - 0) exParent4.subtasks).sum = 1 - 0 :=
  ⟨by simp [exParent4, Task.subtasks],
   (childSpans_partition exParent4 0 1 (by simp [exParent4, Task.subtasks])).2.1⟩

/-- C3: the symmetric padding is clamped to at most half the child's span
minus the `1e-4` epsilon, and every vertical range the layout recursion
assigns below a positive-width root range has strictly positive width, at
every recursion level and for every tree shape (deep chains included). -/
theorem layout_padding_positive :
    (∀ childSpan H, paddingFor childSpan H ≤ childSpan / 2 - 1/10000) ∧
    (∀ t s e H, s < e → ∀ r ∈ layoutRanges t s e H, r.2.1 < r.2.2) :=
  ⟨paddingFor_le, fun t s e H h => layoutRanges_pos t s e H h⟩

/-- Witness for C3 on the deeply nested chain with root range `[0, 1]`. -/
theorem layout_padding_positive_witness :
    (0:ℚ) < 1 ∧ ∀ r ∈ layoutRanges exChain 0 1 108, r.2.1 < r.2.2 :=
  ⟨by decide, layout_padding_positive.2 exChain 0 1 108 (by decide)⟩

/-- C4: for every task, cancel on an already-cancelled task clears the state
of the whole subtree back to default; otherwise it sets the whole subtree to
cancelled; and restore after cancel returns every subtree task to default. -/
theorem cancel_cascade_restore_roundtrip (t : Task) (m : StateMap) :
    (m t.id = some TaskState.cancelled →
      ∀ j ∈ subtreeIds t, cancelAction t m j = none ∧
        stateOfId (cancelAction t m) j = TaskState.default) ∧
    (m t.id ≠ some TaskState.cancelled →
      ∀ j ∈ subtreeIds t, cancelAction t m j = some TaskState.cancelled ∧
        stateOfId (cancelAction t m) j = TaskState.cancelled) ∧
    (∀ j ∈ subtreeIds t, restoreAction t (cancelAction t m) j = none ∧
      stateOfId (restoreAction t (cancelAction t m)) j = TaskState.default) := by
  refine ⟨?_, ?_, ?_⟩
  · intro hc j hj
    have h1 : cancelAction t m j = none := by
      rw [cancelAction, if_pos hc]
      exact clearTaskStateRecursive_mem t m j hj
    exact ⟨h1, by rw [stateOfId, h1]; rfl⟩
  · intro hc j hj
    have h1 : cancelAction t m j = some TaskState.cancelled := by
      rw [cancelAction, if_neg hc]
      exact setTaskStateRecursive_mem t _ m j hj
    exact ⟨h1, by rw [stateOfId, h1]; rfl⟩
  · intro j hj
    have h1 : restoreAction t (cancelAction t m) j = none := by
      simp only [restoreAction]
      exact clearTaskStateRecursive_mem t _ j hj
    exact ⟨h1, by rw [stateOfId, h1]; rfl⟩

/-- Witness for C4 on a concrete two-node subtree, once starting from an
all-cancelled map and once from the empty map. -/
theorem cancel_cascade_witness :
    (allCancelled exPair.id = some TaskState.cancelled) ∧
    (emptyStates exPair.id ≠ some TaskState.cancelled) ∧
    (∀ j ∈ subtreeIds exPair, cancelAction exPair allCancelled j = none ∧
      stateOfId (cancelAction exPair allCancelled) j = TaskState.default) ∧
    (∀ j ∈ subtreeIds exPair, cancelAction exPair emptyStates j = some TaskState.cancelled ∧
      stateOfId (cancelAction exPair emptyStates) j = TaskState.cancelled) ∧
    (∀ j ∈ subtreeIds exPair, restoreAction exPair (cancelAction exPair emptyStates) j = none ∧
      stateOfId (restoreAction exPair (cancelAction exPair emptyStates)) j = TaskState.default) :=
  ⟨rfl, by decide,
   (cancel_cascade_restore_roundtrip exPair allCancelled).1 rfl,
   (cancel_cascade_restore_roundtrip exPair emptyStates).2.1 (by decide),
   (cancel_cascade_restore_roundtrip exPair emptyStates).2.2⟩

/-- C5: complete toggles the completed entry of exactly the targeted task and
leaves every other id untouched; a parent's displayed completion-progress
ratio equals completed direct children over total direct children; completing
2 of 4 children of a parent yields the ratio 1/2. -/
theorem complete_toggle_progress (t : Task) (m : StateMap) :
    (m t.id = some TaskState.completed → completeAction t m t.id = none) ∧
    (m t.id ≠ some TaskState.completed →
      completeAction t m t.id = some TaskState.completed) ∧
    (∀ j, j ≠ t.id → completeAction t m j = m j) ∧
    (t.subtasks ≠ [] →
      progressFill (nodeProgress t m)
        = some (((t.subtasks.filter (fun x => stateOf m x == TaskState.completed)).length : ℚ)
            / (t.subtasks.length : ℚ))) ∧
    (progressFill (nodeProgress exParent4
        (completeAction exLeafB (completeAction exLeafA emptyStates))) = some (1/2)) := by
  refine ⟨?_, ?_, ?_, ?_, ?_⟩
  · intro h
    rw [completeAction, if_pos h, updState_self]
  · intro h
    rw [completeAction, if_neg h, updState_self]
  · intro j hj
    rw [completeAction]
    split
    · exact updState_ne m t.id j none hj
    · exact updState_ne m t.id j (some TaskState.completed) hj
  · intro hsub
    rcases hts : t.subtasks with _ | ⟨c, cs⟩
    · exact absurd hts hsub
    · have hnp : nodeProgress t m
          = some (((c :: cs).filter (fun x => stateOf m x == TaskState.completed)).length,
              (c :: cs).length) := by
        simp only [nodeProgress, hts]
      rw [hnp]
      simp only [progressFill]
      rw [if_pos (by simp)]
      have hpos : (0:ℚ) < ((c :: cs).length : ℚ) := by
        exact_mod_cast Nat.succ_pos cs.length
      have hle : (((c :: cs).filter (fun x => stateOf m x == TaskState.completed)).length : ℚ)
          ≤ ((c :: cs).length : ℚ) := by
        exact_mod_cast List.length_filter_le _ _
      rw [min_eq_left ((div_le_one hpos).mpr hle)]
  · have h1 : nodeProgress exParent4
        (completeAction exLeafB (completeAction exLeafA emptyStates)) = some (2, 4) := by
      decide
    rw [h1]
    simp only [progressFill]
    rw [if_pos (by norm_num)]
    norm_num [min_def]

/-- Witness for C5: toggling on, toggling off, a frame id, and a parent's
progress formula, all at concrete inputs. -/
theorem complete_toggle_witness :
    (allCompleted exLeafA.id = some TaskState.completed) ∧
    (emptyStates exLeafA.id ≠ some TaskState.completed) ∧
    ((7:ℕ) ≠ exLeafA.id) ∧
    (exParent4.subtasks ≠ []) ∧
    completeAction exLeafA allCompleted exLeafA.id = none ∧
    completeAction exLeafA emptyStates exLeafA.id = some TaskState.completed ∧
    completeAction exLeafA emptyStates 7 = emptyStates 7 ∧
    progressFill (nodeProgress exParent4 emptyStates)
      = some (((exParent4.subtasks.filter
            (fun x => stateOf emptyStates x == TaskState.completed)).length : ℚ)
          / (exParent4.subtasks.length : ℚ)) :=
  ⟨rfl, by decide, by decide, by simp [exParent4, Task.subtasks],
   (complete_toggle_progress exLeafA allCompleted).1 rfl,
   (complete_toggle_progress exLeafA emptyStates).2.1 (by decide),
   (complete_toggle_progress exLeafA emptyStates).2.2.1 7 (by decide),
   (complete_toggle_progress exParent4 emptyStates).2.2.2.1 (by simp [exParent4, Task.subtasks])⟩

/-- C6: a wheel event sets the zoom target to the clamped product of the
current zoom with the exponential wheel factor (modelled abstractly as
`zoomDelta`), and solves the pan targets so the world point under the cursor
is preserved in both coordinates. -/
theorem wheelZoom_cursor_fixed (canvasX canvasY zoomDelta : ℚ) (v : ViewState)
    (hne : clamp (v.zoom * zoomDelta) ZOOM_MIN ZOOM_MAX ≠ v.zoomTarget) :
    (wheelZoom canvasX canvasY zoomDelta v).zoomTarget
        = clamp (v.zoom * zoomDelta) ZOOM_MIN ZOOM_MAX ∧
    (canvasX - (wheelZoom canvasX canvasY zoomDelta v).panTargetX)
        / (wheelZoom canvasX canvasY zoomDelta v).zoomTarget
      = (canvasX - v.panX) / v.zoom ∧
    (canvasY - (wheelZoom canvasX canvasY zoomDelta v).panTargetY)
        / (wheelZoom canvasX canvasY zoomDelta v).zoomTarget
      = (canvasY - v.panY) / v.zoom := by
  have hclamp : (0:ℚ) < clamp (v.zoom * zoomDelta) ZOOM_MIN ZOOM_MAX :=
    lt_of_lt_of_le (by norm_num [ZOOM_MIN]) (le_clamp _ _ _ zoom_bounds)
  refine ⟨?_, ?_, ?_⟩
  · simp only [wheelZoom, if_neg hne]
  · simp only [wheelZoom, if_neg hne]
    rw [sub_sub_cancel, mul_div_cancel_right₀ _ (ne_of_gt hclamp)]
  · simp only [wheelZoom, if_neg hne]
    rw [sub_sub_cancel, mul_div_cancel_right₀ _ (ne_of_gt hclamp)]

/-- Witness for C6 at a concrete viewport and a unit wheel factor. -/
theorem wheelZoom_cursor_fixed_witness :
    (clamp (exView.zoom * 1) ZOOM_MIN ZOOM_MAX ≠ exView.zoomTarget) ∧
    ((0 - (wheelZoom 0 0 1 exView).panTargetX) / (wheelZoom 0 0 1 exView).zoomTarget
      = (0 - exView.panX) / exView.zoom) :=
  ⟨by norm_num [clamp, ZOOM_MIN, ZOOM_MAX, exView],
   (wheelZoom_cursor_fixed 0 0 1 exView
      (by norm_num [clamp, ZOOM_MIN, ZOOM_MAX, exView])).2.1⟩

/-- C7: starting from the initial viewport (zoom 1), every sequence of wheel
zooms, keyboard zooms, pans, drags and animation steps keeps both `zoom` and
`zoomTarget` inside `[ZOOM_MIN, ZOOM_MAX]`. -/
theorem zoom_range_invariant (px py : ℚ) (ops : List ViewOp) :
    zoomInRange (applyViewOps ops (initViewState px py)) :=
  applyViewOps_zoomInRange ops _ (initViewState_zoomInRange px py)

/-- C8: the offered actions are determined by the task's state — default gets
exactly cancel, rename, complete; completed and cancelled get exactly delete,
restore; the root gets the empty list. -/
theorem actions_by_state :
    (∀ t m, getActionsForTask true t m = []) ∧
    (∀ t m, stateOf m t = TaskState.default →
      getActionsForTask false t m
        = [ActionType.cancel, ActionType.rename, ActionType.complete]) ∧
    (∀ t m, stateOf m t = TaskState.completed →
      getActionsForTask false t m = [ActionType.delete, ActionType.restore]) ∧
    (∀ t m, stateOf m t = TaskState.cancelled →
      getActionsForTask false t m = [ActionType.delete, ActionType.restore]) := by
  refine ⟨?_, ?_, ?_, ?_⟩
  · intro t m
    rfl
  · intro t m h
    simp [getActionsForTask, h]
  · intro t m h
    simp [getActionsForTask, h]
  · intro t m h
    simp [getActionsForTask, h]

/-- Witness for C8 at one concrete task under three concrete state maps. -/
theorem actions_by_state_witness :
    (stateOf emptyStates exLeafA = TaskState.default) ∧
    (stateOf allCompleted exLeafA = TaskState.completed) ∧
    (stateOf allCancelled exLeafA = TaskState.cancelled) ∧
    getActionsForTask false exLeafA emptyStates
      = [ActionType.cancel, ActionType.rename, ActionType.complete] ∧
    getActionsForTask false exLeafA allCompleted = [ActionType.delete, ActionType.restore] ∧
    getActionsForTask false exLeafA allCancelled = [ActionType.delete, ActionType.restore] :=
  ⟨rfl, rfl, rfl,
   actions_by_state.2.1 exLeafA emptyStates rfl,
   actions_by_state.2.2.1 exLeafA allCompleted rfl,
   actions_by_state.2.2.2 exLeafA allCancelled rfl⟩

/-- Counterexample to C9 as stated: on cancel (Escape) with the
whitespace-only — hence non-empty — pre-edit label " " and a parent present,
the code removes the task from the parent instead of reverting the label. -/
theorem finishEditing_cancel_whitespace_ce :
    finishEditingTask false "x" " " exWsTask (some exWsParent) emptyStates
      ≠ EditOutcome.keptLabel " " := by
  intro h
  have hk : (finishEditingTask false "x" " " exWsTask (some exWsParent) emptyStates).isKept
      = false := rfl
  rw [h] at hk
  exact Bool.noConfusion hk

/-- C9 (amended): committing trims the input — non-empty trimmed text becomes
the label; empty trimmed text removes the task from its parent (the new
sibling list is an in-order sublist without the task, states cleared under
it) or, with no parent, reverts the label; cancelling reverts the label
unless the pre-edit label is empty after trimming (empty or whitespace-only)
and a parent exists, in which case the task is removed. -/
theorem finishEditing_spec (v initial : String) (t p : Task) (m : StateMap) :
    (jsTrim v ≠ "" → ∀ par, finishEditingTask true v initial t par m
        = EditOutcome.keptLabel (jsTrim v)) ∧
    (jsTrim v = "" → finishEditingTask true v initial t none m
        = EditOutcome.keptLabel initial) ∧
    (jsTrim v = "" → ∃ sibs, finishEditingTask true v initial t (some p) m
        = EditOutcome.removedFromParent sibs (clearTaskStateRecursive t m) ∧
        List.Sublist sibs p.subtasks ∧ ∀ c ∈ sibs, c.id ≠ t.id) ∧
    (jsTrim initial ≠ "" → ∀ par, finishEditingTask false v initial t par m
        = EditOutcome.keptLabel initial) ∧
    (finishEditingTask false v initial t none m = EditOutcome.keptLabel initial) ∧
    (jsTrim initial = "" → ∃ sibs, finishEditingTask false v initial t (some p) m
        = EditOutcome.removedFromParent sibs (clearTaskStateRecursive t m) ∧
        List.Sublist sibs p.subtasks ∧ ∀ c ∈ sibs, c.id ≠ t.id) := by
  refine ⟨?_, ?_, ?_, ?_, ?_, ?_⟩
  · intro h par
    simp [finishEditingTask, h]
  · intro h
    simp [finishEditingTask, h]
  · intro h
    refine ⟨p.subtasks.filter (fun x => x.id != t.id), by simp [finishEditingTask, h],
      List.filter_sublist _, fun c hc => ?_⟩
    have := (List.mem_filter.mp hc).2
    simpa [bne_iff_ne] using this
  · intro h par
    simp [finishEditingTask, h]
  · simp [finishEditingTask]
  · intro h
    refine ⟨p.subtasks.filter (fun x => x.id != t.id), by simp [finishEditingTask, h],
      List.filter_sublist _, fun c hc => ?_⟩
    have := (List.mem_filter.mp hc).2
    simpa [bne_iff_ne] using this

/-- Witness for C9 (amended) at concrete inputs: a committed non-empty label
and a cancelled edit of a whitespace-labelled task with a parent. -/
theorem finishEditing_witness :
    (jsTrim "ok" ≠ "") ∧
    finishEditingTask true "ok" "old" exWsTask none emptyStates
      = EditOutcome.keptLabel (jsTrim "ok") ∧
    (jsTrim " " = "") ∧
    (∃ sibs, finishEditingTask false "x" " " exWsTask (some exWsParent) emptyStates
        = EditOutcome.removedFromParent sibs (clearTaskStateRecursive exWsTask emptyStates) ∧
        List.Sublist sibs exWsParent.subtasks ∧ ∀ c ∈ sibs, c.id ≠ exWsTask.id) :=
  ⟨by decide,
   (finishEditing_spec "ok" "old" exWsTask exWsParent emptyStates).1 (by decide) none,
   by decide,
   (finishEditing_spec "x" " " exWsTask exWsParent emptyStates).2.2.2.2.2 (by decide)⟩

/-- C10: the recursive state operations write only ids inside the targeted
subtree; deleting a child removes exactly that child from the parent's
subtask list, keeps the remaining siblings in relative order, and clears
states only under the deleted subtree. -/
theorem state_ops_frame (t c p : Task) (s : TaskState) (m : StateMap) :
    (∀ j, j ∉ subtreeIds t → setTaskStateRecursive t s m j = m j) ∧
    (∀ j, j ∉ subtreeIds t → clearTaskStateRecursive t m j = m j) ∧
    (c ∈ p.subtasks → (p.subtasks.map Task.id).Nodup →
      ∃ l1 l2, p.subtasks = l1 ++ c :: l2 ∧
        (deleteTask c (some p) m).1 = some (l1 ++ l2)) ∧
    (∀ j, j ∉ subtreeIds c → (deleteTask c (some p) m).2 j = m j) := by
  refine ⟨setTaskStateRecursive_frame t s m, clearTaskStateRecursive_frame t m, ?_, ?_⟩
  · intro hmem hnd
    rcases filter_ne_id_decomp p.subtasks c hmem hnd with ⟨l1, l2, h1, h2⟩
    exact ⟨l1, l2, h1, by simp [deleteTask, h2]⟩
  · intro j hj
    simp only [deleteTask]
    exact clearTaskStateRecursive_frame c m j hj

/-- Witness for C10: frame outside a concrete subtree and deletion of the
second of four concrete siblings. -/
theorem state_ops_frame_witness :
    ((99:ℕ) ∉ subtreeIds exPair) ∧
    (exLeafB ∈ exParent4.subtasks) ∧
    ((exParent4.subtasks.map Task.id).Nodup) ∧
    setTaskStateRecursive exPair TaskState.cancelled emptyStates 99 = emptyStates 99 ∧
    clearTaskStateRecursive exPair emptyStates 99 = emptyStates 99 ∧
    (∃ l1 l2, exParent4.subtasks = l1 ++ exLeafB :: l2 ∧
      (deleteTask exLeafB (some exParent4) emptyStates).1 = some (l1 ++ l2)) ∧
    (deleteTask exLeafB (some exParent4) emptyStates).2 99 = emptyStates 99 := by
  have hmem : exLeafB ∈ exParent4.subtasks := List.Mem.tail _ (List.Mem.head _)
  exact ⟨by decide, hmem, by decide,
    (state_ops_frame exPair exLeafB exParent4 TaskState.cancelled emptyStates).1 99 (by decide),
    (state_ops_frame exPair exLeafB exParent4 TaskState.cancelled emptyStates).2.1 99 (by decide),
    (state_ops_frame exPair exLeafB exParent4 TaskState.cancelled emptyStates).2.2.1 hmem (by decide),
    (state_ops_frame exPair exLeafB exParent4 TaskState.cancelled emptyStates).2.2.2 99 (by decide)⟩

end TaskDAG
